import Mathlib

/-!
# A verification development for `lockstep` (oxidecomputer/lockstep)

`lockstep` is a single-binary tool (`src/main.rs`) that cross-checks the
pinned git revisions used by the `crucible`, `propolis` and `omicron`
repositories.  This file gives a shallow embedding of the program's data
model and its three checkers:

* `compare_cargo_toml_revisions` — the recursive walk over `Cargo.toml`
  manifests (workspace members included) emitting "update … rev from … to …"
  records;
* `check_cargo_lock_revisions` — the `Cargo.lock` checker: stale-pin
  reporting plus the `MySourceId` conflict detection (a conflict `panic!`s
  in the source, which we model as `Except.error`);
* the prebuilt-artifact loop of `main` — querying the buildomat artifact
  resource and emitting sha256/rev mismatch or "wait for … to be built"
  records.

Filesystem reading, TOML parsing, git HEAD lookup and the HTTP client are
external collaborators of the program; they appear here as already-parsed
values (manifest trees, lockfile package lists, a revision per repository,
and a response function), exactly as the checkers receive them after the
out-of-scope parsing steps.
-/

/-- Rust's `str::strip_prefix` on the underlying character lists:
`some` of the remainder when the first list is a prefix of the second. -/
def stripPreData : List Char → List Char → Option (List Char)
  | [], s => some s
  | _ :: _, [] => none
  | p :: ps, c :: cs => if p = c then stripPreData ps cs else none

/-- Rust's `str::strip_prefix` for `String`. -/
def stripPre (p s : String) : Option String :=
  (stripPreData p.data s.data).map (fun l => ⟨l⟩)

/-- Rust's `str::ends_with` for `String`, on the underlying character
lists. -/
def endsWithStr (s pat : String) : Bool := pat.data.isSuffixOf s.data

theorem stripPreData_eq_some {p s r : List Char} (h : stripPreData p s = some r) :
    s = p ++ r := by
  induction p generalizing s with
  | nil => simpa [stripPreData] using h
  | cons a ps ih =>
    cases s with
    | nil => simp [stripPreData] at h
    | cons c cs =>
      by_cases hac : a = c
      · simp [stripPreData, hac] at h
        simpa [hac] using congrArg (c :: ·) (ih h)
      · simp [stripPreData, hac] at h

theorem stripPre_eq_some {p s r : String} (h : stripPre p s = some r) :
    s = p ++ r := by
  unfold stripPre at h
  cases hd : stripPreData p.data s.data with
  | none => simp [hd] at h
  | some l =>
    have h' : (⟨l⟩ : String) = r := by simpa [hd] using h
    have hs : s.data = p.data ++ l := stripPreData_eq_some hd
    subst h'
    apply String.ext
    simpa using hs

/-! ## The manifest model (`cargo_toml::Manifest`)

A dependency (`cargo_toml::Dependency`) either has no detail table
(a plain version string, `dep.detail() == None`) or a detail with optional
`git` and `rev` fields.  A manifest has direct dependencies and an optional
workspace; a workspace has workspace-level dependencies and a member list.
The walker reads each member's `Cargo.toml` from disk (glob-expanded); here
a manifest tree carries its members already glob-expanded and parsed, each
tagged with its resolved directory (`sub_cargo_path.parent()` in the
source).  Members whose manifest failed to parse are skipped by the source
(`eprintln!` + `continue`) and therefore simply do not appear in the tree.

`MWorkspace`/`MMembers` are the `Option`/`List` spines inlined into the
inductive so that all recursion below is structural. -/

structure DepDetail where
  git : Option String
  rev : Option String
  deriving Repr, DecidableEq

mutual

inductive MTree : Type where
  | node (dependencies : List (String × Option DepDetail)) (workspace : MWorkspace) : MTree

inductive MWorkspace : Type where
  | none : MWorkspace
  | some (dependencies : List (String × Option DepDetail)) (members : MMembers) : MWorkspace

inductive MMembers : Type where
  | nil : MMembers
  | cons (dir : String) (manifest : MTree) (rest : MMembers) : MMembers

end

/-- One printed "update {cargo_path} {dep_key} rev from {old} to {new}"
instruction of `compare_cargo_toml_revisions`. -/
structure UpdateRec where
  cargo_path : String
  dep_key : String
  oldRev : String
  newRev : String
  deriving Repr, DecidableEq

/-- The body of the two identical dependency loops in
`compare_cargo_toml_revisions` (src/main.rs lines 66-83 and 86-103):
emit a record when the dependency has a git source ending in `package`
and a pinned rev different from `ensure_rev`. -/
def depStep (cargo_path package ensure_rev : String)
    (acc : List UpdateRec × Bool) (d : String × Option DepDetail) :
    List UpdateRec × Bool :=
  match d.2 with
  | Option.none => acc
  | Option.some detail =>
    match detail.git with
    | Option.none => acc
    | Option.some git =>
      if endsWithStr git package then
        match detail.rev with
        | Option.none => acc
        | Option.some rev =>
          if rev ≠ ensure_rev then
            (acc.1 ++ [⟨cargo_path, d.1, rev, ensure_rev⟩], true)
          else acc
      else acc

mutual

/-- `compare_cargo_toml_revisions` (src/main.rs lines 57-136), returning the
emitted records together with the `update_required` flag. -/
def compare_cargo_toml_revisions (sub_directory : String) (m : MTree)
    (package ensure_rev : String) : List UpdateRec × Bool :=
  match m with
  | .node deps ws =>
    let cargo_path := "./" ++ sub_directory ++ "/Cargo.toml"
    let acc := deps.foldl (depStep cargo_path package ensure_rev) ([], false)
    compareWorkspace cargo_path ws package ensure_rev acc
termination_by structural m

def compareWorkspace (cargo_path : String) (ws : MWorkspace)
    (package ensure_rev : String) (acc : List UpdateRec × Bool) :
    List UpdateRec × Bool :=
  match ws with
  | .none => acc
  | .some wdeps members =>
    let acc := wdeps.foldl (depStep cargo_path package ensure_rev) acc
    compareMembers members package ensure_rev acc
termination_by structural ws

def compareMembers (ms : MMembers) (package ensure_rev : String)
    (acc : List UpdateRec × Bool) : List UpdateRec × Bool :=
  match ms with
  | .nil => acc
  | .cons dir manifest rest =>
    let sub := compare_cargo_toml_revisions dir manifest package ensure_rev
    compareMembers rest package ensure_rev (acc.1 ++ sub.1, acc.2 || sub.2)
termination_by structural ms

end

mutual

/-- `get_explicit_dependencies` (src/main.rs lines 139-181): the dependency
names of every `Cargo.toml` in the workspace tree.  The source accumulates
into a `HashSet<String>`; we collect the names in traversal order and use
membership only. -/
def get_explicit_dependencies (m : MTree) : List String :=
  match m with
  | .node deps ws => deps.map (·.1) ++ depNamesWorkspace ws
termination_by structural m

def depNamesWorkspace (ws : MWorkspace) : List String :=
  match ws with
  | .none => []
  | .some wdeps members => wdeps.map (·.1) ++ depNamesMembers members
termination_by structural ws

def depNamesMembers (ms : MMembers) : List String :=
  match ms with
  | .nil => []
  | .cons _ manifest rest => get_explicit_dependencies manifest ++ depNamesMembers rest
termination_by structural ms

end

/-! ## The Manifest Graph Walker, from the spec

§4.1 of the spec: `walk(rootDir, rootManifest) → set<DependencyEdge>`, each
edge tagged with the declaring manifest path.  This definition follows the
spec's words (it is the refinement counterpart that
`compare_cargo_toml_revisions` is checked against in claim C1). -/

/-- A `DependencyEdge` of the spec's data model: declaring manifest path,
dependency name, and the dependency's parsed detail. -/
structure DependencyEdge where
  path : String
  depKey : String
  detail : Option DepDetail
  deriving Repr, DecidableEq

mutual

/-- Spec §4.1 `walk`: union of all dependency edges reachable from the
root, in traversal order. -/
def walk (rootDir : String) (m : MTree) : List DependencyEdge :=
  match m with
  | .node deps ws =>
    let cargo_path := "./" ++ rootDir ++ "/Cargo.toml"
    deps.map (fun d => ⟨cargo_path, d.1, d.2⟩) ++ walkWorkspace cargo_path ws
termination_by structural m

def walkWorkspace (cargo_path : String) (ws : MWorkspace) : List DependencyEdge :=
  match ws with
  | .none => []
  | .some wdeps members =>
    wdeps.map (fun d => ⟨cargo_path, d.1, d.2⟩) ++ walkMembers members
termination_by structural ws

def walkMembers (ms : MMembers) : List DependencyEdge :=
  match ms with
  | .nil => []
  | .cons dir manifest rest => walk dir manifest ++ walkMembers rest
termination_by structural ms

end

/-- The revision-drift record an edge gives rise to, if any: the edge must
have a git source ending in `package` and a pinned rev differing from
`ensure_rev`. -/
def driftRec (package ensure_rev : String) (e : DependencyEdge) : Option UpdateRec :=
  match e.detail with
  | Option.none => Option.none
  | Option.some detail =>
    match detail.git with
    | Option.none => Option.none
    | Option.some git =>
      if endsWithStr git package then
        match detail.rev with
        | Option.none => Option.none
        | Option.some rev =>
          if rev ≠ ensure_rev then Option.some ⟨e.path, e.depKey, rev, ensure_rev⟩
          else Option.none
      else Option.none

/-! ### `compare_cargo_toml_revisions` emits exactly the drift records of the
walked edge set (claim C1) -/

theorem isEmpty_append {α : Type} (a b : List α) :
    (a ++ b).isEmpty = (a.isEmpty && b.isEmpty) := by
  cases a <;> simp [List.isEmpty]

theorem depStep_eq (cp pkg ens : String) (acc : List UpdateRec × Bool)
    (d : String × Option DepDetail) :
    depStep cp pkg ens acc d =
      (acc.1 ++ (driftRec pkg ens ⟨cp, d.1, d.2⟩).toList,
       acc.2 || (driftRec pkg ens ⟨cp, d.1, d.2⟩).isSome) := by
  rcases d with ⟨k, det⟩
  cases det with
  | none => simp [depStep, driftRec]
  | some detail =>
    cases hg : detail.git with
    | none => simp [depStep, driftRec, hg]
    | some git =>
      by_cases hw : endsWithStr git pkg
      · cases hr : detail.rev with
        | none => simp [depStep, driftRec, hg, hr, hw]
        | some rev =>
          by_cases hne : rev = ens
          · simp [depStep, driftRec, hg, hr, hw, hne]
          · simp [depStep, driftRec, hg, hr, hw, hne]
      · simp [depStep, driftRec, hg, hw]

theorem foldl_depStep (cp pkg ens : String) (l : List (String × Option DepDetail))
    (acc : List UpdateRec × Bool) :
    l.foldl (depStep cp pkg ens) acc =
      (acc.1 ++ (l.map (fun d => (⟨cp, d.1, d.2⟩ : DependencyEdge))).filterMap
          (driftRec pkg ens),
       acc.2 || !((l.map (fun d => (⟨cp, d.1, d.2⟩ : DependencyEdge))).filterMap
          (driftRec pkg ens)).isEmpty) := by
  induction l generalizing acc with
  | nil => simp
  | cons d rest ih =>
    rw [List.foldl_cons, depStep_eq, ih]
    cases ho : driftRec pkg ens ⟨cp, d.1, d.2⟩ with
    | none => simp [List.filterMap_cons, ho, Option.toList]
    | some r => simp [List.filterMap_cons, ho, Option.toList, Bool.or_assoc]

mutual

theorem compare_eq_walk (sub : String) (m : MTree) (pkg ens : String) :
    compare_cargo_toml_revisions sub m pkg ens =
      ((walk sub m).filterMap (driftRec pkg ens),
       !((walk sub m).filterMap (driftRec pkg ens)).isEmpty) :=
  match m with
  | .node deps ws => by
    rw [compare_cargo_toml_revisions, walk]
    rw [foldl_depStep, compareWorkspace_eq_walk]
    simp [List.filterMap_append, List.filterMap_map, isEmpty_append, Function.comp]

theorem compareWorkspace_eq_walk (cp : String) (ws : MWorkspace)
    (pkg ens : String) (acc : List UpdateRec × Bool) :
    compareWorkspace cp ws pkg ens acc =
      (acc.1 ++ (walkWorkspace cp ws).filterMap (driftRec pkg ens),
       acc.2 || !((walkWorkspace cp ws).filterMap (driftRec pkg ens)).isEmpty) :=
  match ws with
  | .none => by simp [compareWorkspace, walkWorkspace]
  | .some wdeps members => by
    rw [compareWorkspace, walkWorkspace]
    rw [foldl_depStep, compareMembers_eq_walk]
    simp [List.filterMap_append, List.filterMap_map, isEmpty_append, Function.comp,
      Bool.or_assoc]

theorem compareMembers_eq_walk (ms : MMembers) (pkg ens : String)
    (acc : List UpdateRec × Bool) :
    compareMembers ms pkg ens acc =
      (acc.1 ++ (walkMembers ms).filterMap (driftRec pkg ens),
       acc.2 || !((walkMembers ms).filterMap (driftRec pkg ens)).isEmpty) :=
  match ms with
  | .nil => by simp [compareMembers, walkMembers]
  | .cons dir manifest rest => by
    rw [compareMembers, walkMembers]
    rw [compare_eq_walk, compareMembers_eq_walk]
    simp [List.filterMap_append, isEmpty_append, Bool.or_assoc]

end

/-! ## Source identity (`MySourceId`, src/main.rs lines 183-221)

`cargo_lock::package::SourceKind` is `Git(GitReference) | Registry |
SparseRegistry | Path`; `GitReference` is `Tag | Branch | Rev` of a string.
Both derive `Ord` (lexicographic by declaration order).  A `url::Url` is
kept here as the part before the path plus the path — enough for the two
uses in the source: whole-URL ordering for identity, and `url.path()` for
the `/oxidecomputer/` check — ordered like the URL's serialization. -/

inductive GitReference : Type where
  | tag (name : String) : GitReference
  | branch (name : String) : GitReference
  | rev (id : String) : GitReference
  deriving Repr, DecidableEq

inductive SourceKind : Type where
  | git (reference : GitReference) : SourceKind
  | registry : SourceKind
  | sparseRegistry : SourceKind
  | path : SourceKind
  deriving Repr, DecidableEq

structure Url where
  base : String
  urlPath : String
  deriving Repr, DecidableEq

def GitReference.cmp : GitReference → GitReference → Ordering
  | .tag a, .tag b => compare a b
  | .tag _, _ => .lt
  | .branch _, .tag _ => .gt
  | .branch a, .branch b => compare a b
  | .branch _, .rev _ => .lt
  | .rev _, .tag _ => .gt
  | .rev _, .branch _ => .gt
  | .rev a, .rev b => compare a b

def SourceKind.cmp : SourceKind → SourceKind → Ordering
  | .git a, .git b => GitReference.cmp a b
  | .git _, _ => .lt
  | .registry, .git _ => .gt
  | .registry, .registry => .eq
  | .registry, _ => .lt
  | .sparseRegistry, .git _ => .gt
  | .sparseRegistry, .registry => .gt
  | .sparseRegistry, .sparseRegistry => .eq
  | .sparseRegistry, .path => .lt
  | .path, .path => .eq
  | .path, _ => .gt

def Url.cmp (a b : Url) : Ordering :=
  (compare a.base b.base).then (compare a.urlPath b.urlPath)

/-- `MySourceId` (src/main.rs lines 185-190). -/
structure MySourceId where
  url : Url
  kind : SourceKind
  precise : Option String
  deriving Repr, DecidableEq

/-- `impl Ord for MySourceId` (src/main.rs lines 204-214): compare `kind`,
then `url`; `precise` (and the name) are ignored. -/
def MySourceId.cmp (a b : MySourceId) : Ordering :=
  match SourceKind.cmp a.kind b.kind with
  | .eq => Url.cmp a.url b.url
  | other => other

/-- `impl PartialEq for MySourceId` (src/main.rs lines 192-196):
`self.cmp(other) == Ordering::Equal`. -/
def MySourceId.eqId (a b : MySourceId) : Bool :=
  MySourceId.cmp a b == Ordering.eq

theorem stringCompare_eq_iff (a b : String) : compare a b = Ordering.eq ↔ a = b := by
  rw [Batteries.BEqCmp.cmp_iff_beq, beq_iff_eq]

theorem gitReferenceCmp_eq_iff (a b : GitReference) :
    GitReference.cmp a b = Ordering.eq ↔ a = b := by
  cases a <;> cases b <;>
    simp [GitReference.cmp, stringCompare_eq_iff]

theorem sourceKindCmp_eq_iff (a b : SourceKind) :
    SourceKind.cmp a b = Ordering.eq ↔ a = b := by
  cases a <;> cases b <;>
    simp [SourceKind.cmp, gitReferenceCmp_eq_iff]

theorem urlCmp_eq_iff (a b : Url) : Url.cmp a b = Ordering.eq ↔ a = b := by
  rcases a with ⟨ab, ap⟩; rcases b with ⟨bb, bp⟩
  unfold Url.cmp
  cases hc : compare ab bb with
  | eq =>
    have hb : ab = bb := (stringCompare_eq_iff ab bb).1 hc
    simp [Ordering.then, stringCompare_eq_iff, hb]
  | lt =>
    have : ¬ ab = bb := fun h => by simp [h, (stringCompare_eq_iff bb bb).2 rfl] at hc
    simp [Ordering.then, this]
  | gt =>
    have : ¬ ab = bb := fun h => by simp [h, (stringCompare_eq_iff bb bb).2 rfl] at hc
    simp [Ordering.then, this]

/-- The comparator ignores `precise`: two `MySourceId`s are `Equal` exactly
when kind and url agree. -/
theorem mySourceIdCmp_eq_iff (a b : MySourceId) :
    MySourceId.cmp a b = Ordering.eq ↔ a.kind = b.kind ∧ a.url = b.url := by
  unfold MySourceId.cmp
  cases hk : SourceKind.cmp a.kind b.kind with
  | eq =>
    have : a.kind = b.kind := (sourceKindCmp_eq_iff _ _).1 hk
    simp [this, urlCmp_eq_iff]
  | lt =>
    have : ¬ a.kind = b.kind := fun h => by
      simp [h, (sourceKindCmp_eq_iff b.kind b.kind).2 rfl] at hk
    simp [this]
  | gt =>
    have : ¬ a.kind = b.kind := fun h => by
      simp [h, (sourceKindCmp_eq_iff b.kind b.kind).2 rfl] at hk
    simp [this]

theorem mySourceIdEqId_iff (a b : MySourceId) :
    MySourceId.eqId a b = true ↔ a.kind = b.kind ∧ a.url = b.url := by
  unfold MySourceId.eqId
  constructor
  · intro h
    have hc : MySourceId.cmp a b = Ordering.eq := by
      cases hc : MySourceId.cmp a b <;> rw [hc] at h <;> first | rfl | exact absurd h (by decide)
    exact (mySourceIdCmp_eq_iff a b).1 hc
  · intro h
    rw [(mySourceIdCmp_eq_iff a b).2 h]
    rfl

/-! ## The `Cargo.lock` checker (src/main.rs lines 223-294)

`cargo_lock::Lockfile` appears as its package list; each package has a name
and an optional source (url, kind, optional `precise` revision).  The
`latest_revs : BTreeMap<String, String>` appears as an association list
with unique keys, `dependencies : HashSet<String>` as the name list
produced by `get_explicit_dependencies` (membership only).  The `panic!`
on a source-id mismatch (lines 278-282) is modelled as `Except.error`
carrying the two clashing ids. -/

structure LockSource where
  url : Url
  kind : SourceKind
  precise : Option String
  deriving Repr, DecidableEq

structure LockPackage where
  name : String
  source : Option LockSource
  deriving Repr, DecidableEq

/-- `BTreeMap::get` on the `latest_revs` table. -/
def lookupRev (latest : List (String × String)) (repo : String) : Option String :=
  (latest.find? (fun e => e.1 == repo)).map (·.2)

/-- The stale-pin check for one package (src/main.rs lines 240-266): the
printed line, if any.  Mirrors the nesting of the source: the
`/oxidecomputer/` path prefix is stripped, the source kind must be
`Git(Branch(..))`, there must be a `precise` revision, the stripped repo
name must have a tracked latest revision differing from `precise`, and the
package name must be among the explicit dependencies. -/
def staleLine (sub_directory : String) (latest : List (String × String))
    (dependencies : List String) (p : LockPackage) : Option String :=
  match p.source with
  | Option.none => Option.none
  | Option.some source =>
    match stripPre "/oxidecomputer/" source.url.urlPath with
    | Option.none => Option.none
    | Option.some repo =>
      match source.kind with
      | SourceKind.git (GitReference.branch _) =>
        match source.precise with
        | Option.none => Option.none
        | Option.some precise =>
          match lookupRev latest repo with
          | Option.none => Option.none
          | Option.some latest_rev =>
            if latest_rev ≠ precise then
              if dependencies.contains p.name then
                Option.some (sub_directory ++ "/Cargo.lock has old rev for " ++ repo
                  ++ " " ++ p.name ++ "! update " ++ precise ++ " to " ++ latest_rev)
              else Option.none
            else Option.none
      | _ => Option.none

/-- Build the `MySourceId` of a package source (src/main.rs lines 268-272). -/
def mkSourceId (s : LockSource) : MySourceId :=
  ⟨s.url, s.kind, s.precise⟩

/-- The conflict check for one source id (src/main.rs lines 274-285).
`sources.get(&id)` is the lookup of an element equal modulo the
`MySourceId` comparator; `HashSet::insert` of an element already present
keeps the set unchanged. -/
def conflictStep (sources : List MySourceId) (sid : MySourceId) :
    Except (MySourceId × MySourceId) (List MySourceId) :=
  match sources.find? (fun e => MySourceId.eqId e sid) with
  | Option.some existing =>
    if existing.precise = sid.precise then Except.ok sources
    else Except.error (existing, sid)
  | Option.none => Except.ok (sources ++ [sid])

/-- The package loop of `check_cargo_lock_revisions`
(src/main.rs lines 240-287), accumulating the stale-pin lines and the
source-id set, aborting on a conflict. -/
def checkLockGo (sub_directory : String) (latest : List (String × String))
    (dependencies : List String) :
    List LockPackage → List String → List MySourceId →
    Except (MySourceId × MySourceId) (List String × List MySourceId)
  | [], lines, sources => Except.ok (lines, sources)
  | p :: rest, lines, sources =>
    match p.source with
    | Option.none => checkLockGo sub_directory latest dependencies rest lines sources
    | Option.some s =>
      let lines := lines ++ (staleLine sub_directory latest dependencies p).toList
      match conflictStep sources (mkSourceId s) with
      | Except.error e => Except.error e
      | Except.ok sources => checkLockGo sub_directory latest dependencies rest lines sources

/-- `check_cargo_lock_revisions` (src/main.rs lines 223-294) up to the final
printing of the source set: the stale-pin lines in package order and the
collected source-id set (its printing order is considered separately, since
the source iterates a `HashSet`). -/
def check_cargo_lock_revisions (sub_directory : String)
    (latest : List (String × String)) (dependencies : List String)
    (packages : List LockPackage) :
    Except (MySourceId × MySourceId) (List String × List MySourceId) :=
  checkLockGo sub_directory latest dependencies packages [] []

/-- The `Debug` rendering of an `Option<String>` precise revision. -/
def showPrecise : Option String → String
  | Option.none => "None"
  | Option.some s => "Some(\"" ++ s ++ "\")"

/-- The `Debug` rendering of a `SourceKind`. -/
def showKind : SourceKind → String
  | SourceKind.git (GitReference.branch b) => "Git(Branch(\"" ++ b ++ "\"))"
  | SourceKind.git (GitReference.tag t) => "Git(Tag(\"" ++ t ++ "\"))"
  | SourceKind.git (GitReference.rev r) => "Git(Rev(\"" ++ r ++ "\"))"
  | SourceKind.registry => "Registry"
  | SourceKind.sparseRegistry => "SparseRegistry"
  | SourceKind.path => "Path"

/-- Line 290: `"{}/Cargo.lock has source {:?}"` for one source id, with the
`Debug` formatting of `MySourceId` spelled out. -/
def sourceLine (sub_directory : String) (s : MySourceId) : String :=
  sub_directory ++ "/Cargo.lock has source MySourceId \x7b url: \""
    ++ s.url.base ++ s.url.urlPath ++ "\", kind: " ++ showKind s.kind
    ++ ", precise: " ++ showPrecise s.precise ++ " \x7d"

/-- The full printed output of one `check_cargo_lock_revisions` run, given
the order in which the `HashSet` iteration of lines 289-291 yields the
source ids.  That order is left as a parameter precisely because `HashSet`
iteration order is unspecified (randomly seeded per process): any
permutation of the collected set is a possible run. -/
def lockCheckOutput (sub_directory : String) (latest : List (String × String))
    (dependencies : List String) (packages : List LockPackage)
    (iter : List MySourceId) : Except (MySourceId × MySourceId) (List String) :=
  match check_cargo_lock_revisions sub_directory latest dependencies packages with
  | Except.error e => Except.error e
  | Except.ok (lines, _) => Except.ok (lines ++ iter.map (sourceLine sub_directory))

/-! ### Conflict detection characterization (claim C2) -/

/-- The source ids occurring in a package list, in order. -/
def sids (packages : List LockPackage) : List MySourceId :=
  packages.filterMap (fun p => p.source.map mkSourceId)

/-- All pairs of ids of the list that share a source identity (same kind,
same url — what the `MySourceId` comparator looks at) agree on `precise`. -/
def Consistent (l : List MySourceId) : Prop :=
  ∀ a ∈ l, ∀ b ∈ l, a.kind = b.kind → a.url = b.url → a.precise = b.precise

theorem consistent_of_sub {l l' : List MySourceId}
    (h : ∀ x, x ∈ l → x ∈ l') (hc : Consistent l') : Consistent l :=
  fun a ha b hb => hc a (h a ha) b (h b hb)

theorem consistent_congr {l l' : List MySourceId}
    (h : ∀ x, x ∈ l ↔ x ∈ l') : Consistent l ↔ Consistent l' :=
  ⟨fun hc => consistent_of_sub (fun x hx => (h x).2 hx) hc,
   fun hc => consistent_of_sub (fun x hx => (h x).1 hx) hc⟩

theorem checkLockGo_ok_iff (sub : String) (latest : List (String × String))
    (deps : List String) :
    ∀ (pkgs : List LockPackage) (lines : List String) (sources : List MySourceId),
    Consistent sources →
    ((∃ r, checkLockGo sub latest deps pkgs lines sources = Except.ok r) ↔
      Consistent (sources ++ sids pkgs)) := by
  intro pkgs
  induction pkgs with
  | nil =>
    intro lines sources hc
    simp [checkLockGo, sids, hc]
  | cons p rest ih =>
    intro lines sources hc
    cases hps : p.source with
    | none =>
      rw [show checkLockGo sub latest deps (p :: rest) lines sources =
            checkLockGo sub latest deps rest lines sources by
          rw [checkLockGo, hps]]
      rw [ih lines sources hc]
      apply consistent_congr
      intro x
      simp [sids, List.filterMap_cons, hps]
    | some s =>
      have hsids : sids (p :: rest) = mkSourceId s :: sids rest := by
        simp [sids, List.filterMap_cons, hps]
      rw [hsids]
      cases hf : (sources.find? (fun e => MySourceId.eqId e (mkSourceId s))) with
      | none =>
        rw [show checkLockGo sub latest deps (p :: rest) lines sources =
              checkLockGo sub latest deps rest
                (lines ++ (staleLine sub latest deps p).toList)
                (sources ++ [mkSourceId s]) by
            rw [checkLockGo, hps]
            simp only [conflictStep, hf]]
        have hnone : ∀ e ∈ sources, ¬ (e.kind = (mkSourceId s).kind ∧
            e.url = (mkSourceId s).url) := by
          intro e he hcon
          have := List.find?_eq_none.1 hf e he
          rw [mySourceIdEqId_iff] at this
          exact this ⟨hcon.1, hcon.2⟩
        have hc' : Consistent (sources ++ [mkSourceId s]) := by
          intro a ha b hb hk hu
          simp [List.mem_append] at ha hb
          rcases ha with ha | ha <;> rcases hb with hb | hb
          · exact hc a ha b hb hk hu
          · exact absurd ⟨hb ▸ hk, hb ▸ hu⟩ (hnone a ha)
          · exact absurd ⟨ha ▸ hk.symm, ha ▸ hu.symm⟩ (hnone b hb)
          · rw [ha, hb]
        rw [ih _ _ hc']
        apply consistent_congr
        intro x
        simp only [List.mem_append, List.mem_cons]
        tauto
      | some ex =>
        have hex_mem : ex ∈ sources := List.mem_of_find?_eq_some hf
        have hex_eq : ex.kind = (mkSourceId s).kind ∧ ex.url = (mkSourceId s).url := by
          have := List.find?_some hf
          exact (mySourceIdEqId_iff _ _).1 this
        by_cases hpr : ex.precise = (mkSourceId s).precise
        · rw [show checkLockGo sub latest deps (p :: rest) lines sources =
                checkLockGo sub latest deps rest
                  (lines ++ (staleLine sub latest deps p).toList) sources by
              rw [checkLockGo, hps]
              simp only [conflictStep, hf, if_pos hpr]]
          rw [ih _ _ hc]
          constructor
          · intro h a ha b hb hk hu
            -- membership in the larger list routes the new id through its
            -- representative `ex`
            have key : ∀ x ∈ sources ++ mkSourceId s :: sids rest,
                x = mkSourceId s ∨ x ∈ sources ++ sids rest := by
              intro x hx
              simp only [List.mem_append, List.mem_cons] at hx ⊢
              tauto
            rcases key a ha with rfl | ha' <;> rcases key b hb with rfl | hb'
            · rfl
            · have := h ex (List.mem_append_left _ hex_mem) b hb'
                (hex_eq.1.symm ▸ hk) (hex_eq.2.symm ▸ hu)
              rw [← hpr]; exact this
            · have := h a ha' ex (List.mem_append_left _ hex_mem)
                (hk.trans hex_eq.1.symm) (hu.trans hex_eq.2.symm)
              rw [this, hpr]
            · exact h a ha' b hb' hk hu
          · intro h
            apply consistent_of_sub _ h
            intro x hx
            simp only [List.mem_append, List.mem_cons] at hx ⊢
            tauto
        · rw [show checkLockGo sub latest deps (p :: rest) lines sources =
                Except.error (ex, mkSourceId s) by
              rw [checkLockGo, hps]
              simp only [conflictStep, hf, if_neg hpr]]
          constructor
          · intro ⟨r, hr⟩; exact absurd hr (by simp)
          · intro h
            exact absurd (h ex (List.mem_append_left _ hex_mem) (mkSourceId s)
              (by simp [List.mem_append, List.mem_cons]) hex_eq.1 hex_eq.2) hpr
/-! ### Unfolding equations for the package loop -/

theorem checkLockGo_cons_none {p : LockPackage} (sub : String)
    (latest : List (String × String)) (deps : List String)
    (rest : List LockPackage) (lines : List String) (sources : List MySourceId)
    (hps : p.source = Option.none) :
    checkLockGo sub latest deps (p :: rest) lines sources =
      checkLockGo sub latest deps rest lines sources := by
  rw [checkLockGo, hps]

theorem checkLockGo_cons_ok {p : LockPackage} {s : LockSource}
    {sources' : List MySourceId} (sub : String)
    (latest : List (String × String)) (deps : List String)
    (rest : List LockPackage) (lines : List String) (sources : List MySourceId)
    (hps : p.source = Option.some s)
    (hcs : conflictStep sources (mkSourceId s) = Except.ok sources') :
    checkLockGo sub latest deps (p :: rest) lines sources =
      checkLockGo sub latest deps rest
        (lines ++ (staleLine sub latest deps p).toList) sources' := by
  rw [checkLockGo, hps]
  simp only [hcs]

theorem checkLockGo_cons_err {p : LockPackage} {s : LockSource}
    {e : MySourceId × MySourceId} (sub : String)
    (latest : List (String × String)) (deps : List String)
    (rest : List LockPackage) (lines : List String) (sources : List MySourceId)
    (hps : p.source = Option.some s)
    (hcs : conflictStep sources (mkSourceId s) = Except.error e) :
    checkLockGo sub latest deps (p :: rest) lines sources = Except.error e := by
  rw [checkLockGo, hps]
  simp only [hcs]

/-! ### Stale-pin characterization (claims C3, C10) -/

theorem checkLockGo_lines (sub : String) (latest : List (String × String))
    (deps : List String) :
    ∀ (pkgs : List LockPackage) (lines : List String) (sources : List MySourceId)
      (r : List String × List MySourceId),
    checkLockGo sub latest deps pkgs lines sources = Except.ok r →
    r.1 = lines ++ pkgs.filterMap (staleLine sub latest deps) := by
  intro pkgs
  induction pkgs with
  | nil =>
    intro lines sources r h
    simp [checkLockGo] at h
    simp [← h]
  | cons p rest ih =>
    intro lines sources r h
    cases hps : p.source with
    | none =>
      rw [checkLockGo_cons_none sub latest deps rest lines sources hps] at h
      have hnone : staleLine sub latest deps p = Option.none := by
        rw [staleLine, hps]
      rw [ih _ _ _ h, List.filterMap_cons, hnone]
    | some s =>
      cases hcs : conflictStep sources (mkSourceId s) with
      | error e =>
        rw [checkLockGo_cons_err sub latest deps rest lines sources hps hcs] at h
        exact absurd h (by simp)
      | ok sources' =>
        rw [checkLockGo_cons_ok sub latest deps rest lines sources hps hcs] at h
        rw [ih _ _ _ h, List.filterMap_cons]
        cases hsl : staleLine sub latest deps p <;>
          simp [hsl, Option.toList]

/-- The flat form of the stale-pin condition: the package has a source whose
url path is `/oxidecomputer/` followed by exactly a repo name, the source is
a movable git branch reference with a precise resolved revision, the repo
has a tracked latest revision that differs from the precise one, and the
package name is among the explicit dependency names. -/
def StalePinCondition (latest : List (String × String)) (deps : List String)
    (p : LockPackage) : Prop :=
  ∃ s repo precise latest_rev, p.source = Option.some s ∧
    stripPre "/oxidecomputer/" s.url.urlPath = Option.some repo ∧
    (∃ b, s.kind = SourceKind.git (GitReference.branch b)) ∧
    s.precise = Option.some precise ∧
    lookupRev latest repo = Option.some latest_rev ∧
    latest_rev ≠ precise ∧
    deps.contains p.name = true

theorem staleLine_isSome_iff (sub : String) (latest : List (String × String))
    (deps : List String) (p : LockPackage) :
    (staleLine sub latest deps p).isSome = true ↔ StalePinCondition latest deps p := by
  unfold staleLine StalePinCondition
  cases hps : p.source with
  | none => simp
  | some s =>
    cases hsp : stripPre "/oxidecomputer/" s.url.urlPath with
    | none => simp [hsp]
    | some repo =>
      cases hk : s.kind with
      | git ref =>
        cases ref with
        | branch b =>
          cases hpr : s.precise with
          | none => simp [hsp, hk, hpr]
          | some precise =>
            cases hlr : lookupRev latest repo with
            | none => simp [hsp, hk, hpr, hlr]
            | some latest_rev =>
              by_cases hne : latest_rev = precise
              · simp [hsp, hk, hpr, hlr, hne]
              · by_cases hdep : deps.contains p.name = true
                · simp [hsp, hk, hpr, hlr, hne, hdep]
                · simp [hsp, hk, hpr, hlr, hne, hdep]
        | tag t => simp [hsp, hk]
        | rev rv => simp [hsp, hk]
      | registry => simp [hsp, hk]
      | sparseRegistry => simp [hsp, hk]
      | path => simp [hsp, hk]

/-! ## The prebuilt-artifact loop of `main` (src/main.rs lines 378-450)

`omicron`'s `package-manifest.toml` appears as a list of named packages,
each with a `PackageSource` — only the `Prebuilt { repo, commit, sha256 }`
variant is examined, any other variant is skipped by the `if let`.  The
HTTP client is a function from the query triple (repo, rev, artifact name)
to a response: either a network error from `send()` or an HTTP response
with a success flag, a status text and a body (`response.text()` is the
body; its own failure mode is not modelled).  Each emitted line is kept as
a structured record.  The loop also records which queries were issued. -/

inductive ZonePackageSource : Type where
  | prebuilt (repo commit sha256 : String) : ZonePackageSource
  | other : ZonePackageSource
  deriving Repr, DecidableEq

inductive ArtifactResponse : Type where
  | netErr (err : String) : ArtifactResponse
  | http (success : Bool) (statusText : String) (body : String) : ArtifactResponse
  deriving Repr, DecidableEq

/-- The printed lines of the artifact loop, as structured records:
`"no latest rev for {repo}"`, `"wait for {name} image for {rev} to be
built (reqwest returned {err})"`, `"update omicron package manifest {name}
sha256 from {old} to {new}"`, `"update omicron package manifest {name} rev
from {old} to {new}"`. -/
inductive ALine : Type where
  | noLatestRev (repo : String) : ALine
  | waitBuild (name rev err : String) : ALine
  | shaMismatch (name oldSha newSha : String) : ALine
  | revMismatch (name oldRev newRev : String) : ALine
  deriving Repr, DecidableEq

/-- Running state of the artifact loop: printed lines, the
`update_required` flag (false when the loop starts: `main` has already
returned if an earlier check set it), and the artifact-resource queries
issued so far (repo, rev at which the image is expected, artifact name). -/
structure AState where
  lines : List ALine
  upd : Bool
  queries : List (String × String × String)
  deriving Repr, DecidableEq

/-- One iteration of the artifact loop (src/main.rs lines 382-449). -/
def artifactStep (latest : List (String × String)) (propolis_rev : String)
    (resp : String → String → String → ArtifactResponse)
    (acc : AState) (entry : String × ZonePackageSource) : AState :=
  match entry.2 with
  | ZonePackageSource.other => acc
  | ZonePackageSource.prebuilt repo commit sha256 =>
    match lookupRev latest repo with
    | Option.none => { acc with lines := acc.lines ++ [ALine.noLatestRev repo] }
    | Option.some latest_rev =>
      if repo = "maghemite" then acc
      else
        let acc := { acc with queries := acc.queries ++ [(repo, latest_rev, entry.1)] }
        match resp repo latest_rev entry.1 with
        | ArtifactResponse.netErr e =>
          { acc with lines := acc.lines ++ [ALine.waitBuild entry.1 propolis_rev e] }
        | ArtifactResponse.http success statusText body =>
          if success then
            let acc :=
              if body.trim ≠ sha256 then
                { acc with
                  lines := acc.lines ++ [ALine.shaMismatch entry.1 sha256 body.trim],
                  upd := true }
              else acc
            if commit ≠ latest_rev then
              { acc with
                lines := acc.lines ++ [ALine.revMismatch entry.1 commit latest_rev],
                upd := true }
            else acc
          else
            { acc with lines := acc.lines ++ [ALine.waitBuild entry.1 propolis_rev statusText] }

/-- The whole artifact loop over the package manifest entries. -/
def artifactChecks (latest : List (String × String)) (propolis_rev : String)
    (resp : String → String → String → ArtifactResponse)
    (entries : List (String × ZonePackageSource)) : AState :=
  entries.foldl (artifactStep latest propolis_rev resp) ⟨[], false, []⟩

/-! ### Per-entry characterization of the artifact loop -/

/-- The lines one entry contributes. -/
def entryLines (latest : List (String × String)) (propolis_rev : String)
    (resp : String → String → String → ArtifactResponse)
    (entry : String × ZonePackageSource) : List ALine :=
  match entry.2 with
  | ZonePackageSource.other => []
  | ZonePackageSource.prebuilt repo commit sha256 =>
    match lookupRev latest repo with
    | Option.none => [ALine.noLatestRev repo]
    | Option.some latest_rev =>
      if repo = "maghemite" then []
      else
        match resp repo latest_rev entry.1 with
        | ArtifactResponse.netErr e => [ALine.waitBuild entry.1 propolis_rev e]
        | ArtifactResponse.http success statusText body =>
          if success then
            (if body.trim ≠ sha256 then [ALine.shaMismatch entry.1 sha256 body.trim]
             else []) ++
            (if commit ≠ latest_rev then [ALine.revMismatch entry.1 commit latest_rev]
             else [])
          else [ALine.waitBuild entry.1 propolis_rev statusText]

/-- Whether one entry sets `update_required`. -/
def entryUpd (latest : List (String × String))
    (resp : String → String → String → ArtifactResponse)
    (entry : String × ZonePackageSource) : Bool :=
  match entry.2 with
  | ZonePackageSource.other => false
  | ZonePackageSource.prebuilt repo commit sha256 =>
    match lookupRev latest repo with
    | Option.none => false
    | Option.some latest_rev =>
      if repo = "maghemite" then false
      else
        match resp repo latest_rev entry.1 with
        | ArtifactResponse.netErr _ => false
        | ArtifactResponse.http success _ body =>
          if success then decide (body.trim ≠ sha256) || decide (commit ≠ latest_rev)
          else false

/-- The artifact-resource query one entry issues, if any. -/
def entryQuery (latest : List (String × String))
    (entry : String × ZonePackageSource) : Option (String × String × String) :=
  match entry.2 with
  | ZonePackageSource.other => Option.none
  | ZonePackageSource.prebuilt repo _ _ =>
    match lookupRev latest repo with
    | Option.none => Option.none
    | Option.some latest_rev =>
      if repo = "maghemite" then Option.none
      else Option.some (repo, latest_rev, entry.1)

theorem artifactStep_eq (latest : List (String × String)) (prev : String)
    (resp : String → String → String → ArtifactResponse)
    (acc : AState) (entry : String × ZonePackageSource) :
    artifactStep latest prev resp acc entry =
      ⟨acc.lines ++ entryLines latest prev resp entry,
       acc.upd || entryUpd latest resp entry,
       acc.queries ++ (entryQuery latest entry).toList⟩ := by
  rcases entry with ⟨name, src⟩
  cases src with
  | other => simp [artifactStep, entryLines, entryUpd, entryQuery, Option.toList]
  | prebuilt repo commit sha256 =>
    cases hlr : lookupRev latest repo with
    | none => simp [artifactStep, entryLines, entryUpd, entryQuery, hlr, Option.toList]
    | some latest_rev =>
      by_cases hm : repo = "maghemite"
      · subst hm
        simp [artifactStep, entryLines, entryUpd, entryQuery, hlr, Option.toList]
      · cases hr : resp repo latest_rev name with
        | netErr e =>
          simp [artifactStep, entryLines, entryUpd, entryQuery, hlr, hm, hr, Option.toList]
        | http success statusText body =>
          cases success with
          | false =>
            simp [artifactStep, entryLines, entryUpd, entryQuery, hlr, hm, hr, Option.toList]
          | true =>
            by_cases hb : body.trim = sha256 <;> by_cases hcm : commit = latest_rev <;>
              simp [artifactStep, entryLines, entryUpd, entryQuery, hlr, hm, hr, hb, hcm,
                Option.toList]

theorem artifactChecks_go (latest : List (String × String)) (prev : String)
    (resp : String → String → String → ArtifactResponse) :
    ∀ (entries : List (String × ZonePackageSource)) (acc : AState),
    entries.foldl (artifactStep latest prev resp) acc =
      ⟨acc.lines ++ entries.flatMap (entryLines latest prev resp),
       acc.upd || entries.any (fun e => entryUpd latest resp e),
       acc.queries ++ entries.filterMap (entryQuery latest)⟩ := by
  intro entries
  induction entries with
  | nil => intro acc; simp
  | cons e rest ih =>
    intro acc
    rw [List.foldl_cons, artifactStep_eq, ih]
    cases hq : entryQuery latest e with
    | none =>
      simp [List.flatMap_cons, List.filterMap_cons, hq, Option.toList, Bool.or_assoc]
    | some q =>
      simp [List.flatMap_cons, List.filterMap_cons, hq, Option.toList, Bool.or_assoc]

theorem artifactChecks_eq (latest : List (String × String)) (prev : String)
    (resp : String → String → String → ArtifactResponse)
    (entries : List (String × ZonePackageSource)) :
    artifactChecks latest prev resp entries =
      ⟨entries.flatMap (entryLines latest prev resp),
       entries.any (fun e => entryUpd latest resp e),
       entries.filterMap (entryQuery latest)⟩ := by
  unfold artifactChecks
  rw [artifactChecks_go]
  simp

/-! ### Failing artifact queries (claims C7, C9) -/

/-- A failing artifact query: a network error from `send()`, or a non-success
HTTP status; the carried string is what `"reqwest returned {}"` shows. -/
def respFailure : ArtifactResponse → Option String
  | ArtifactResponse.netErr e => Option.some e
  | ArtifactResponse.http success statusText _ =>
    if success then Option.none else Option.some statusText

theorem entryLines_fail {latest : List (String × String)} {prev : String}
    {resp : String → String → String → ArtifactResponse}
    {name repo commit sha256 rev err : String}
    (hlr : lookupRev latest repo = Option.some rev) (hm : repo ≠ "maghemite")
    (hf : respFailure (resp repo rev name) = Option.some err) :
    entryLines latest prev resp (name, ZonePackageSource.prebuilt repo commit sha256) =
      [ALine.waitBuild name prev err] := by
  cases hr : resp repo rev name with
  | netErr e =>
    rw [hr] at hf
    simp [respFailure] at hf
    simp [entryLines, hlr, hm, hr, hf]
  | http success statusText body =>
    rw [hr] at hf
    cases success with
    | true => simp [respFailure] at hf
    | false =>
      simp [respFailure] at hf
      simp [entryLines, hlr, hm, hr, hf]

theorem entryUpd_fail {latest : List (String × String)}
    {resp : String → String → String → ArtifactResponse}
    {name repo commit sha256 rev err : String}
    (hlr : lookupRev latest repo = Option.some rev) (hm : repo ≠ "maghemite")
    (hf : respFailure (resp repo rev name) = Option.some err) :
    entryUpd latest resp (name, ZonePackageSource.prebuilt repo commit sha256) = false := by
  cases hr : resp repo rev name with
  | netErr e => simp [entryUpd, hlr, hm, hr]
  | http success statusText body =>
    rw [hr] at hf
    cases success with
    | true => simp [respFailure] at hf
    | false => simp [entryUpd, hlr, hm, hr]

theorem entryLines_count_other {latest : List (String × String)} {prev : String}
    {resp : String → String → String → ArtifactResponse}
    {name err : String} (e : String × ZonePackageSource) (hne : e.1 ≠ name) :
    (entryLines latest prev resp e).count (ALine.waitBuild name prev err) = 0 := by
  rw [List.count_eq_zero]
  intro hmem
  rcases e with ⟨n, src⟩
  simp at hne
  cases src with
  | other => simp [entryLines] at hmem
  | prebuilt repo commit sha256 =>
    cases hlr : lookupRev latest repo with
    | none => simp [entryLines, hlr] at hmem
    | some rev =>
      by_cases hm : repo = "maghemite"
      · subst hm
        simp [entryLines, hlr] at hmem
      · cases hr : resp repo rev n with
        | netErr er =>
          simp [entryLines, hlr, hm, hr] at hmem
          exact hne hmem.1.symm
        | http success statusText body =>
          cases success with
          | true =>
            simp [entryLines, hlr, hm, hr] at hmem
          | false =>
            simp [entryLines, hlr, hm, hr] at hmem
            exact hne hmem.1.symm

theorem flatMap_count_zero {latest : List (String × String)} {prev : String}
    {resp : String → String → String → ArtifactResponse} {name err : String} :
    ∀ (entries : List (String × ZonePackageSource)),
    (∀ e ∈ entries, e.1 ≠ name) →
    (entries.flatMap (entryLines latest prev resp)).count
      (ALine.waitBuild name prev err) = 0 := by
  intro entries
  induction entries with
  | nil => intro _; simp
  | cons e rest ih =>
    intro h
    rw [List.flatMap_cons, List.count_append,
      entryLines_count_other e (h e (List.mem_cons_self e rest)),
      ih (fun x hx => h x (List.mem_cons_of_mem e hx))]

theorem flatMap_count_one {latest : List (String × String)} {prev : String}
    {resp : String → String → String → ArtifactResponse}
    {name repo commit sha256 rev err : String}
    (hlr : lookupRev latest repo = Option.some rev) (hm : repo ≠ "maghemite")
    (hf : respFailure (resp repo rev name) = Option.some err) :
    ∀ (entries : List (String × ZonePackageSource)),
    (entries.map Prod.fst).Nodup →
    (name, ZonePackageSource.prebuilt repo commit sha256) ∈ entries →
    (entries.flatMap (entryLines latest prev resp)).count
      (ALine.waitBuild name prev err) = 1 := by
  intro entries
  induction entries with
  | nil => intro _ hmem; simp at hmem
  | cons e rest ih =>
    intro hnd hmem
    rw [List.map_cons, List.nodup_cons] at hnd
    rw [List.flatMap_cons, List.count_append]
    rcases List.mem_cons.1 hmem with heq | htail
    · rw [← heq, entryLines_fail hlr hm hf]
      have hrest : ∀ x ∈ rest, x.1 ≠ name := by
        intro x hx hxe
        apply hnd.1
        have hmm : x.1 ∈ List.map Prod.fst rest := List.mem_map_of_mem Prod.fst hx
        rw [hxe] at hmm
        have he1 : e.1 = name := by rw [← heq]
        rw [he1]
        exact hmm
      rw [flatMap_count_zero rest hrest]
      simp
    · have hne : e.1 ≠ name := by
        intro hxe
        apply hnd.1
        have hmm : name ∈ List.map Prod.fst rest := by
          simpa using List.mem_map_of_mem Prod.fst htail
        rw [hxe]
        exact hmm
      rw [entryLines_count_other e hne, ih hnd.2 htail]

/-- The flat condition under which one artifact entry sets
`update_required`: a prebuilt source from a tracked, non-excluded repo
whose query succeeded, with a hash mismatch or a stale commit. -/
def UpdCondition (latest : List (String × String))
    (resp : String → String → String → ArtifactResponse)
    (entry : String × ZonePackageSource) : Prop :=
  ∃ repo commit sha256 latest_rev statusText body,
    entry.2 = ZonePackageSource.prebuilt repo commit sha256 ∧
    lookupRev latest repo = Option.some latest_rev ∧
    repo ≠ "maghemite" ∧
    resp repo latest_rev entry.1 = ArtifactResponse.http true statusText body ∧
    (body.trim ≠ sha256 ∨ commit ≠ latest_rev)

theorem entryUpd_eq_true_iff (latest : List (String × String))
    (resp : String → String → String → ArtifactResponse)
    (entry : String × ZonePackageSource) :
    entryUpd latest resp entry = true ↔ UpdCondition latest resp entry := by
  rcases entry with ⟨n, src⟩
  unfold UpdCondition
  cases src with
  | other => simp [entryUpd]
  | prebuilt repo commit sha256 =>
    simp only [Prod.snd, ZonePackageSource.prebuilt.injEq]
    cases hlr : lookupRev latest repo with
    | none => simp [entryUpd, hlr]
    | some latest_rev =>
      by_cases hm : repo = "maghemite"
      · subst hm
        simp [entryUpd, hlr]
      · cases hr : resp repo latest_rev n with
        | netErr e => simp [entryUpd, hlr, hm, hr]
        | http success statusText body =>
          cases success with
          | false => simp [entryUpd, hlr, hm, hr]
          | true =>
            by_cases hb : body.trim = sha256 <;> by_cases hcm : commit = latest_rev
            · constructor
              · intro hfalse
                simp [entryUpd, hlr, hm, hr, hb, hcm] at hfalse
              · rintro ⟨r1, c1, s1, lr, st', bd', ⟨hr1, hc1, hs1⟩, hlr', hm', hr', hor⟩
                subst hr1; subst hc1; subst hs1
                rw [hlr] at hlr'
                cases hlr'
                rw [hr] at hr'
                cases hr'
                exfalso
                rcases hor with hor | hor
                · exact hor hb
                · exact hor hcm
            · have hupd : entryUpd latest resp
                  (n, ZonePackageSource.prebuilt repo commit sha256) = true := by
                simp [entryUpd, hlr, hm, hr, hb, hcm]
              rw [hupd]
              simp only [true_iff]
              exact ⟨repo, commit, sha256, latest_rev, statusText, body,
                ⟨rfl, rfl, rfl⟩, hlr, hm, hr, Or.inr hcm⟩
            · have hupd : entryUpd latest resp
                  (n, ZonePackageSource.prebuilt repo commit sha256) = true := by
                simp [entryUpd, hlr, hm, hr, hb, hcm]
              rw [hupd]
              simp only [true_iff]
              exact ⟨repo, commit, sha256, latest_rev, statusText, body,
                ⟨rfl, rfl, rfl⟩, hlr, hm, hr, Or.inl hb⟩
            · have hupd : entryUpd latest resp
                  (n, ZonePackageSource.prebuilt repo commit sha256) = true := by
                simp [entryUpd, hlr, hm, hr, hb, hcm]
              rw [hupd]
              simp only [true_iff]
              exact ⟨repo, commit, sha256, latest_rev, statusText, body,
                ⟨rfl, rfl, rfl⟩, hlr, hm, hr, Or.inl hb⟩

/-! ## The driver (`main`, src/main.rs lines 296-456)

`main`'s environment — git HEADs of the five checked-out repositories, the
parsed manifests and lockfiles, the parsed `package-manifest.toml` and the
HTTP client — is a record.  `main` performs its checks in a fixed order and
returns early (`return Ok(())`) as soon as `update_required` is set at one
of the two short-circuit points (lines 347-349 and 374-376); the sequence
of checks actually performed is recorded as a list of events.  The missing-
checkout precondition check (lines 301-305) and lockfile/manifest load
errors abort before any check; runs reaching the checks are modelled. -/

structure Env where
  crucibleRev : String
  propolisRev : String
  maghemiteRev : String
  dendriteRev : String
  omicronRev : String
  crucibleTree : MTree
  propolisTree : MTree
  omicronTree : MTree
  crucibleLock : List LockPackage
  propolisLock : List LockPackage
  omicronLock : List LockPackage
  packageManifest : List (String × ZonePackageSource)
  resp : String → String → String → ArtifactResponse

/-- The `latest_revs` table built in lines 307-334 (`BTreeMap` iteration
order is by key; only lookups are used). -/
def latestRevs (env : Env) : List (String × String) :=
  [("crucible", env.crucibleRev), ("dendrite", env.dendriteRev),
   ("maghemite", env.maghemiteRev), ("omicron", env.omicronRev),
   ("propolis", env.propolisRev)]

/-- One checker invocation performed by `main`, with its result. -/
inductive CheckEvent : Type where
  | lockCheck (sub_directory : String) (staleLines : List String)
      (sources : List MySourceId) : CheckEvent
  | tomlCheck (sub_directory package : String) (recs : List UpdateRec) : CheckEvent
  | artifactCheck (st : AState) : CheckEvent
  deriving Repr, DecidableEq

/-- The check sequence of `main` (src/main.rs lines 336-456): crucible
lockfile check, propolis-pins-crucible manifest check, short-circuit;
propolis and omicron lockfile checks, omicron-pins-crucible and
omicron-pins-propolis manifest checks, short-circuit; artifact checks.
A lockfile conflict `panic!` aborts the run. -/
def mainRun (env : Env) : Except (MySourceId × MySourceId) (List CheckEvent) :=
  let latest := latestRevs env
  match check_cargo_lock_revisions "crucible" latest
      (get_explicit_dependencies env.crucibleTree) env.crucibleLock with
  | Except.error e => Except.error e
  | Except.ok r1 =>
    let c1 := compare_cargo_toml_revisions "propolis" env.propolisTree "crucible"
      env.crucibleRev
    let evs := [CheckEvent.lockCheck "crucible" r1.1 r1.2,
      CheckEvent.tomlCheck "propolis" "crucible" c1.1]
    if c1.2 then Except.ok evs
    else
      match check_cargo_lock_revisions "propolis" latest
          (get_explicit_dependencies env.propolisTree) env.propolisLock with
      | Except.error e => Except.error e
      | Except.ok r2 =>
        match check_cargo_lock_revisions "omicron" latest
            (get_explicit_dependencies env.omicronTree) env.omicronLock with
        | Except.error e => Except.error e
        | Except.ok r3 =>
          let c2 := compare_cargo_toml_revisions "omicron" env.omicronTree "crucible"
            env.crucibleRev
          let c3 := compare_cargo_toml_revisions "omicron" env.omicronTree "propolis"
            env.propolisRev
          let evs := evs ++ [CheckEvent.lockCheck "propolis" r2.1 r2.2,
            CheckEvent.lockCheck "omicron" r3.1 r3.2,
            CheckEvent.tomlCheck "omicron" "crucible" c2.1,
            CheckEvent.tomlCheck "omicron" "propolis" c3.1]
          if c2.2 || c3.2 then Except.ok evs
          else Except.ok (evs ++ [CheckEvent.artifactCheck
            (artifactChecks latest env.propolisRev env.resp env.packageManifest)])

/-- Every wait-for-build line an entry contributes carries `propolis_rev`
(the `prev` parameter), whichever repository the entry declares. -/
theorem entryLines_waitBuild_rev {latest : List (String × String)} {prev : String}
    {resp : String → String → String → ArtifactResponse}
    (e : String × ZonePackageSource) (l : ALine)
    (hl : l ∈ entryLines latest prev resp e) :
    ∀ n2 r2 e2, l = ALine.waitBuild n2 r2 e2 → r2 = prev := by
  intro n2 r2 e2 heq
  subst heq
  rcases e with ⟨n, src⟩
  cases src with
  | other => simp [entryLines] at hl
  | prebuilt repo commit sha256 =>
    cases hlr : lookupRev latest repo with
    | none => simp [entryLines, hlr] at hl
    | some rev =>
      by_cases hm : repo = "maghemite"
      · subst hm
        simp [entryLines, hlr] at hl
      · cases hr : resp repo rev n with
        | netErr er =>
          simp [entryLines, hlr, hm, hr] at hl
          exact hl.2.1
        | http success statusText body =>
          cases success with
          | true => simp [entryLines, hlr, hm, hr] at hl
          | false =>
            simp [entryLines, hlr, hm, hr] at hl
            exact hl.2.1

/-! ## The claims -/

/-- C1: over the walked manifest graph, `compare_cargo_toml_revisions` emits
exactly one revision-drift record — naming the old and the new revision —
for each dependency edge whose git source location ends with the target
package name and whose pinned revision differs from the target revision,
no record for such an edge whose pinned revision equals the target, and its
`update_required` result is true iff at least one record was emitted.
(`driftRec` maps an edge to its record precisely under those conditions;
`List.filterMap` keeps exactly one image per qualifying edge.) -/
theorem claim_c1_compare_emits_exactly_drift_records (sub_directory : String)
    (m : MTree) (package ensure_rev : String) :
    compare_cargo_toml_revisions sub_directory m package ensure_rev =
      ((walk sub_directory m).filterMap (driftRec package ensure_rev),
       !((walk sub_directory m).filterMap (driftRec package ensure_rev)).isEmpty) :=
  compare_eq_walk sub_directory m package ensure_rev

/-- C2: the `Cargo.lock` checker completes without aborting iff every two
resolved packages with equal source identity (same kind and same url — the
fields the `MySourceId` comparator looks at) have equal precise revisions;
equivalently, it aborts with the fatal conflict error (the `panic!`) iff
two such packages disagree on their precise revision. -/
theorem claim_c2_conflict_aborts_iff (sub_directory : String)
    (latest : List (String × String)) (deps : List String)
    (packages : List LockPackage) :
    (∃ r, check_cargo_lock_revisions sub_directory latest deps packages =
      Except.ok r) ↔
    (∀ p ∈ packages, ∀ q ∈ packages, ∀ sp sq,
      p.source = Option.some sp → q.source = Option.some sq →
      sp.kind = sq.kind → sp.url = sq.url → sp.precise = sq.precise) := by
  unfold check_cargo_lock_revisions
  rw [checkLockGo_ok_iff sub_directory latest deps packages [] []
    (fun a ha => absurd ha (List.not_mem_nil a))]
  rw [List.nil_append]
  constructor
  · intro hc p hp q hq sp sq hsp hsq hk hu
    have hmp : mkSourceId sp ∈ sids packages :=
      List.mem_filterMap.2 ⟨p, hp, by rw [hsp]; rfl⟩
    have hmq : mkSourceId sq ∈ sids packages :=
      List.mem_filterMap.2 ⟨q, hq, by rw [hsq]; rfl⟩
    exact hc (mkSourceId sp) hmp (mkSourceId sq) hmq hk hu
  · intro h a ha b hb hk hu
    rcases List.mem_filterMap.1 ha with ⟨p, hp, hpa⟩
    rcases List.mem_filterMap.1 hb with ⟨q, hq, hqb⟩
    rcases Option.map_eq_some'.1 hpa with ⟨sp, hsp, hspa⟩
    rcases Option.map_eq_some'.1 hqb with ⟨sq, hsq, hsqb⟩
    subst hspa; subst hsqb
    exact h p hp q hq sp sq hsp hsq hk hu

/-- C3: on a completed (non-aborted) run, the stale-pin lines are exactly
the lines of the packages satisfying the stale-pin condition — source url
path `/oxidecomputer/` + repo, movable git-branch kind, a precise revision,
a tracked latest revision for the repo that differs from it, and a package
name among the explicit dependency names; in particular a transitive-only
package (name not among the explicit dependencies) yields no line, and a
matched repo with no tracked revision is skipped silently. -/
theorem claim_c3_stale_pin_characterization (sub_directory : String)
    (latest : List (String × String)) (deps : List String)
    (packages : List LockPackage) (r : List String × List MySourceId)
    (h : check_cargo_lock_revisions sub_directory latest deps packages =
      Except.ok r) :
    r.1 = packages.filterMap (staleLine sub_directory latest deps) ∧
    ∀ p : LockPackage,
      (staleLine sub_directory latest deps p).isSome = true ↔
        StalePinCondition latest deps p := by
  refine ⟨?_, fun p => staleLine_isSome_iff sub_directory latest deps p⟩
  have hl := checkLockGo_lines sub_directory latest deps packages [] [] r h
  simpa using hl

/-- C4: the `MySourceId` comparison — `Ord::cmp` and the `PartialEq`
defined from it — returns `Equal` exactly when the source kinds and the
urls agree, whatever the two `precise` fields are. -/
theorem claim_c4_cmp_ignores_precise (a b : MySourceId) :
    (MySourceId.cmp a b = Ordering.eq ↔ a.kind = b.kind ∧ a.url = b.url) ∧
    (MySourceId.eqId a b = true ↔ a.kind = b.kind ∧ a.url = b.url) :=
  ⟨mySourceIdCmp_eq_iff a b, mySourceIdEqId_iff a b⟩

deriving instance DecidableEq for Except

/-! ### C5: output determinism

All lines of one lockfile-checker run are deterministic in its inputs
except the final source-audit loop (src/main.rs lines 289-291), which
iterates a `HashSet<MySourceId>`: `HashSet` iteration order is unspecified
and randomly seeded per process, so two runs over identical inputs may
print those lines in different orders.  `lockCheckOutput` therefore takes
the iteration order as a parameter; any permutation of the collected
source set is a possible run. -/

def cexIdA : MySourceId :=
  ⟨⟨"https://github.com", "/oxidecomputer/crucible"⟩,
   SourceKind.git (GitReference.branch "main"), Option.some "aaa"⟩

def cexIdB : MySourceId :=
  ⟨⟨"https://github.com", "/oxidecomputer/propolis"⟩,
   SourceKind.git (GitReference.branch "main"), Option.some "ccc"⟩

def cexPackages : List LockPackage :=
  [⟨"crucible", Option.some ⟨⟨"https://github.com", "/oxidecomputer/crucible"⟩,
      SourceKind.git (GitReference.branch "main"), Option.some "aaa"⟩⟩,
   ⟨"propolis", Option.some ⟨⟨"https://github.com", "/oxidecomputer/propolis"⟩,
      SourceKind.git (GitReference.branch "main"), Option.some "ccc"⟩⟩]

/-- C5, counterexample: on a two-package lockfile both `[cexIdA, cexIdB]`
and `[cexIdB, cexIdA]` are valid iteration orders of the collected source
set (both are permutations of it), yet the two runs print different
outputs — the claim that two runs over identical inputs produce identical,
stably ordered output fails on the code. -/
theorem claim_c5_counterexample :
    (∃ lines sources,
      check_cargo_lock_revisions "omicron" [] [] cexPackages =
        Except.ok (lines, sources) ∧
      List.Perm [cexIdA, cexIdB] sources ∧ List.Perm [cexIdB, cexIdA] sources) ∧
    lockCheckOutput "omicron" [] [] cexPackages [cexIdA, cexIdB] ≠
      lockCheckOutput "omicron" [] [] cexPackages [cexIdB, cexIdA] := by
  constructor
  · exact ⟨[], [cexIdA, cexIdB], by decide, by decide, by decide⟩
  · decide

/-- C5, amended: two runs over identical inputs agree on everything except
the order of the source-audit lines: each run prints the stale-pin lines
first, identically and in the same order, followed by the audit lines of
the same source set in an arbitrary iteration order — so the two printed
outputs are permutations of each other with an identical stale prefix. -/
theorem claim_c5_amended (sub_directory : String)
    (latest : List (String × String)) (deps : List String)
    (packages : List LockPackage) (lines : List String)
    (sources o1 o2 : List MySourceId)
    (h : check_cargo_lock_revisions sub_directory latest deps packages =
      Except.ok (lines, sources))
    (h1 : o1.Perm sources) (h2 : o2.Perm sources) :
    lockCheckOutput sub_directory latest deps packages o1 =
      Except.ok (lines ++ o1.map (sourceLine sub_directory)) ∧
    lockCheckOutput sub_directory latest deps packages o2 =
      Except.ok (lines ++ o2.map (sourceLine sub_directory)) ∧
    (lines ++ o1.map (sourceLine sub_directory)).Perm
      (lines ++ o2.map (sourceLine sub_directory)) ∧
    (lines ++ o1.map (sourceLine sub_directory)).take lines.length = lines ∧
    (lines ++ o2.map (sourceLine sub_directory)).take lines.length = lines := by
  refine ⟨?_, ?_, ?_, List.take_left lines _, List.take_left lines _⟩
  · unfold lockCheckOutput
    rw [h]
  · unfold lockCheckOutput
    rw [h]
  · exact List.Perm.append_left lines ((h1.trans h2.symm).map (sourceLine sub_directory))

theorem claim_c5_amended_witness :
    lockCheckOutput "omicron" [] [] cexPackages [cexIdA, cexIdB] =
      Except.ok (([] : List String) ++ [cexIdA, cexIdB].map (sourceLine "omicron")) ∧
    lockCheckOutput "omicron" [] [] cexPackages [cexIdB, cexIdA] =
      Except.ok (([] : List String) ++ [cexIdB, cexIdA].map (sourceLine "omicron")) ∧
    (([] : List String) ++ [cexIdA, cexIdB].map (sourceLine "omicron")).Perm
      (([] : List String) ++ [cexIdB, cexIdA].map (sourceLine "omicron")) ∧
    (([] : List String) ++ [cexIdA, cexIdB].map (sourceLine "omicron")).take
      ([] : List String).length = ([] : List String) ∧
    (([] : List String) ++ [cexIdB, cexIdA].map (sourceLine "omicron")).take
      ([] : List String).length = ([] : List String) :=
  claim_c5_amended "omicron" [] [] cexPackages [] [cexIdA, cexIdB]
    [cexIdA, cexIdB] [cexIdB, cexIdA] (by decide) (by decide) (by decide)

/-- C3, witness: a concrete completed run — one stale crucible pin, tracked
at `bbb` but locked at `aaa` and named in the dependency set — emits
exactly its stale-pin line. -/
theorem claim_c3_witness :
    (["crucible/Cargo.lock has old rev for crucible crucible! update aaa to bbb"],
      [(⟨⟨"https://github.com", "/oxidecomputer/crucible"⟩,
        SourceKind.git (GitReference.branch "main"), Option.some "aaa"⟩ : MySourceId)]).1 =
      [(⟨"crucible", Option.some ⟨⟨"https://github.com", "/oxidecomputer/crucible"⟩,
          SourceKind.git (GitReference.branch "main"), Option.some "aaa"⟩⟩ : LockPackage)].filterMap
        (staleLine "crucible" [("crucible", "bbb")] ["crucible"]) ∧
    ∀ p : LockPackage,
      (staleLine "crucible" [("crucible", "bbb")] ["crucible"] p).isSome = true ↔
        StalePinCondition [("crucible", "bbb")] ["crucible"] p :=
  claim_c3_stale_pin_characterization "crucible" [("crucible", "bbb")] ["crucible"]
    [⟨"crucible", Option.some ⟨⟨"https://github.com", "/oxidecomputer/crucible"⟩,
        SourceKind.git (GitReference.branch "main"), Option.some "aaa"⟩⟩]
    (["crucible/Cargo.lock has old rev for crucible crucible! update aaa to bbb"],
      [⟨⟨"https://github.com", "/oxidecomputer/crucible"⟩,
        SourceKind.git (GitReference.branch "main"), Option.some "aaa"⟩])
    (by decide)

/-- C6: if the propolis-pins-crucible manifest check reports drift
(`update_required` true), `main` returns immediately: the run's event list
is exactly the crucible lockfile check followed by that manifest check —
no propolis or omicron lockfile check, no omicron manifest check, and no
artifact check is performed. -/
theorem claim_c6_short_circuit (env : Env) (evs : List CheckEvent)
    (h : mainRun env = Except.ok evs)
    (hu : (compare_cargo_toml_revisions "propolis" env.propolisTree "crucible"
      env.crucibleRev).2 = true) :
    ∃ staleLines sources,
      evs = [CheckEvent.lockCheck "crucible" staleLines sources,
        CheckEvent.tomlCheck "propolis" "crucible"
          (compare_cargo_toml_revisions "propolis" env.propolisTree "crucible"
            env.crucibleRev).1] := by
  unfold mainRun at h
  cases hc : check_cargo_lock_revisions "crucible" (latestRevs env)
      (get_explicit_dependencies env.crucibleTree) env.crucibleLock with
  | error e =>
    simp only [hc] at h
    exact absurd h (by simp)
  | ok r1 =>
    simp only [hc, hu, if_true] at h
    exact ⟨r1.1, r1.2, (Except.ok.inj h).symm⟩

def c6Env : Env :=
  { crucibleRev := "bbb", propolisRev := "ppp", maghemiteRev := "mmm",
    dendriteRev := "ddd", omicronRev := "ooo",
    crucibleTree := MTree.node [] MWorkspace.none,
    propolisTree := MTree.node
      [("crucible", Option.some
        ⟨Option.some "https://github.com/oxidecomputer/crucible", Option.some "aaa"⟩)]
      MWorkspace.none,
    omicronTree := MTree.node [] MWorkspace.none,
    crucibleLock := [], propolisLock := [], omicronLock := [],
    packageManifest := [],
    resp := fun _ _ _ => ArtifactResponse.netErr "offline" }

/-- C6, witness: a run whose propolis manifest pins crucible at `aaa` while
crucible's HEAD is `bbb` stops after the first two checks. -/
theorem claim_c6_witness :
    ∃ staleLines sources,
      [CheckEvent.lockCheck "crucible" [] [],
       CheckEvent.tomlCheck "propolis" "crucible"
         [⟨"./propolis/Cargo.toml", "crucible", "aaa", "bbb"⟩]] =
      [CheckEvent.lockCheck "crucible" staleLines sources,
       CheckEvent.tomlCheck "propolis" "crucible"
         (compare_cargo_toml_revisions "propolis" c6Env.propolisTree "crucible"
           c6Env.crucibleRev).1] :=
  claim_c6_short_circuit c6Env
    [CheckEvent.lockCheck "crucible" [] [],
     CheckEvent.tomlCheck "propolis" "crucible"
       [⟨"./propolis/Cargo.toml", "crucible", "aaa", "bbb"⟩]]
    (by decide) (by decide)

/-- C7: a prebuilt artifact from a tracked, non-excluded repo whose query
fails (network error or non-success status) yields exactly one
wait-for-build record, and the `update_required` flag is true iff some
entry has a successful query with a hash mismatch or a stale commit — a
failing query never sets it. -/
theorem claim_c7_not_yet_built (latest : List (String × String)) (prev : String)
    (resp : String → String → String → ArtifactResponse)
    (entries : List (String × ZonePackageSource))
    (name repo commit sha256 rev err : String)
    (hnd : (entries.map Prod.fst).Nodup)
    (hmem : (name, ZonePackageSource.prebuilt repo commit sha256) ∈ entries)
    (hlr : lookupRev latest repo = Option.some rev)
    (hm : repo ≠ "maghemite")
    (hf : respFailure (resp repo rev name) = Option.some err) :
    (artifactChecks latest prev resp entries).lines.count
      (ALine.waitBuild name prev err) = 1 ∧
    ((artifactChecks latest prev resp entries).upd = true ↔
      ∃ e ∈ entries, UpdCondition latest resp e) := by
  rw [artifactChecks_eq]
  constructor
  · show (entries.flatMap (entryLines latest prev resp)).count
      (ALine.waitBuild name prev err) = 1
    exact flatMap_count_one hlr hm hf entries hnd hmem
  · show entries.any (fun e => entryUpd latest resp e) = true ↔
      ∃ e ∈ entries, UpdCondition latest resp e
    rw [List.any_eq_true]
    constructor
    · rintro ⟨e, he, hupd⟩
      exact ⟨e, he, (entryUpd_eq_true_iff latest resp e).1 hupd⟩
    · rintro ⟨e, he, hupd⟩
      exact ⟨e, he, (entryUpd_eq_true_iff latest resp e).2 hupd⟩

def c7Resp : String → String → String → ArtifactResponse :=
  fun _ _ _ => ArtifactResponse.netErr "boom"

/-- C7, witness: one crucible artifact whose query fails with a network
error gets exactly one wait record and leaves `update_required` false. -/
theorem claim_c7_witness :
    (artifactChecks [("crucible", "ccc"), ("propolis", "ppp")] "ppp" c7Resp
      [("crucible-img", ZonePackageSource.prebuilt "crucible" "c0" "s0")]).lines.count
      (ALine.waitBuild "crucible-img" "ppp" "boom") = 1 ∧
    ((artifactChecks [("crucible", "ccc"), ("propolis", "ppp")] "ppp" c7Resp
      [("crucible-img", ZonePackageSource.prebuilt "crucible" "c0" "s0")]).upd = true ↔
      ∃ e ∈ [("crucible-img", ZonePackageSource.prebuilt "crucible" "c0" "s0")],
        UpdCondition [("crucible", "ccc"), ("propolis", "ppp")] c7Resp e) :=
  claim_c7_not_yet_built [("crucible", "ccc"), ("propolis", "ppp")] "ppp" c7Resp
    [("crucible-img", ZonePackageSource.prebuilt "crucible" "c0" "s0")]
    "crucible-img" "crucible" "c0" "s0" "ccc" "boom"
    (by decide) (by decide) (by decide) (by decide) (by decide)

def c8Resp : String → String → String → ArtifactResponse :=
  fun _ _ _ => ArtifactResponse.netErr "down"

/-- C8, counterexample: a prebuilt declaration referencing `maghemite` —
tracked (it has a latest revision) but explicitly excluded — is skipped
with NO informational note: the artifact loop prints nothing at all for
it, contradicting the claim that excluded declarations are skipped with a
note printed. -/
theorem claim_c8_counterexample :
    lookupRev [("maghemite", "m0"), ("propolis", "p0")] "maghemite" =
      Option.some "m0" ∧
    artifactChecks [("maghemite", "m0"), ("propolis", "p0")] "p0" c8Resp
      [("mg-ddm", ZonePackageSource.prebuilt "maghemite" "c0" "s0")] =
      ⟨[], false, []⟩ := by
  constructor
  · decide
  · decide

/-- C8, amended: a prebuilt declaration whose repo is untracked is skipped
with exactly the informational "no latest rev" note — never an error, a
discrepancy record or a query; a declaration of the excluded repo
(`maghemite`) is skipped silently, with no note; and the artifact resource
is queried exactly for the prebuilt declarations whose repo is tracked and
not excluded. -/
theorem claim_c8_amended (latest : List (String × String)) (prev : String)
    (resp : String → String → String → ArtifactResponse)
    (entries : List (String × ZonePackageSource)) :
    ((artifactChecks latest prev resp entries).lines =
        entries.flatMap (entryLines latest prev resp) ∧
      (artifactChecks latest prev resp entries).upd =
        entries.any (fun e => entryUpd latest resp e) ∧
      (artifactChecks latest prev resp entries).queries =
        entries.filterMap (entryQuery latest)) ∧
    (∀ name repo commit sha256, lookupRev latest repo = Option.none →
      entryLines latest prev resp
        (name, ZonePackageSource.prebuilt repo commit sha256) =
        [ALine.noLatestRev repo] ∧
      entryUpd latest resp (name, ZonePackageSource.prebuilt repo commit sha256) =
        false ∧
      entryQuery latest (name, ZonePackageSource.prebuilt repo commit sha256) =
        Option.none) ∧
    (∀ name commit sha256 mrev, lookupRev latest "maghemite" = Option.some mrev →
      entryLines latest prev resp
        (name, ZonePackageSource.prebuilt "maghemite" commit sha256) = [] ∧
      entryUpd latest resp
        (name, ZonePackageSource.prebuilt "maghemite" commit sha256) = false ∧
      entryQuery latest
        (name, ZonePackageSource.prebuilt "maghemite" commit sha256) =
        Option.none) ∧
    (∀ entry : String × ZonePackageSource,
      (entryQuery latest entry).isSome = true ↔
      ∃ repo commit sha256 lrev,
        entry.2 = ZonePackageSource.prebuilt repo commit sha256 ∧
        lookupRev latest repo = Option.some lrev ∧ repo ≠ "maghemite") := by
  refine ⟨?_, ?_, ?_, ?_⟩
  · rw [artifactChecks_eq]
    exact ⟨rfl, rfl, rfl⟩
  · intro name repo commit sha256 h
    exact ⟨by simp [entryLines, h], by simp [entryUpd, h], by simp [entryQuery, h]⟩
  · intro name commit sha256 mrev h
    exact ⟨by simp [entryLines, h], by simp [entryUpd, h], by simp [entryQuery, h]⟩
  · intro entry
    rcases entry with ⟨n, src⟩
    cases src with
    | other => simp [entryQuery]
    | prebuilt repo commit sha256 =>
      cases hlr : lookupRev latest repo with
      | none => simp [entryQuery, hlr]
      | some lrev =>
        by_cases hm : repo = "maghemite"
        · subst hm
          simp [entryQuery, hlr]
        · simp [entryQuery, hlr, hm]

/-- C8, amended, witness: with `maghemite` the only tracked repo, a
crucible declaration (untracked) yields exactly the note and no query,
while a maghemite declaration (excluded) yields nothing. -/
theorem claim_c8_amended_witness :
    (entryLines [("maghemite", "m0")] "p0" c8Resp
        ("x", ZonePackageSource.prebuilt "crucible" "c" "s") =
        [ALine.noLatestRev "crucible"] ∧
      entryUpd [("maghemite", "m0")] c8Resp
        ("x", ZonePackageSource.prebuilt "crucible" "c" "s") = false ∧
      entryQuery [("maghemite", "m0")]
        ("x", ZonePackageSource.prebuilt "crucible" "c" "s") = Option.none) ∧
    (entryLines [("maghemite", "m0")] "p0" c8Resp
        ("y", ZonePackageSource.prebuilt "maghemite" "c" "s") = [] ∧
      entryUpd [("maghemite", "m0")] c8Resp
        ("y", ZonePackageSource.prebuilt "maghemite" "c" "s") = false ∧
      entryQuery [("maghemite", "m0")]
        ("y", ZonePackageSource.prebuilt "maghemite" "c" "s") = Option.none) :=
  ⟨(claim_c8_amended [("maghemite", "m0")] "p0" c8Resp []).2.1 "x" "crucible" "c" "s"
      (by decide),
   (claim_c8_amended [("maghemite", "m0")] "p0" c8Resp []).2.2.1 "y" "c" "s" "m0"
      (by decide)⟩

/-- C9: every wait-for-build line the artifact loop of `main` prints names
`propolis_rev` — the propolis repository's current revision, the `prev`
argument `main` passes (src/main.rs lines 410-411 and 420-423) — whatever
repository the failing artifact itself declares; in particular the record
for a failing artifact from any tracked, non-excluded repo carries
`env.propolisRev`, not that repo's own tracked revision. -/
theorem claim_c9_wait_names_propolis_rev (env : Env)
    (name repo commit sha256 rev err : String)
    (hmem : (name, ZonePackageSource.prebuilt repo commit sha256) ∈
      env.packageManifest)
    (hlr : lookupRev (latestRevs env) repo = Option.some rev)
    (hm : repo ≠ "maghemite")
    (hf : respFailure (env.resp repo rev name) = Option.some err) :
    ALine.waitBuild name env.propolisRev err ∈
      (artifactChecks (latestRevs env) env.propolisRev env.resp
        env.packageManifest).lines ∧
    ∀ l ∈ (artifactChecks (latestRevs env) env.propolisRev env.resp
        env.packageManifest).lines,
      ∀ n2 r2 e2, l = ALine.waitBuild n2 r2 e2 → r2 = env.propolisRev := by
  rw [artifactChecks_eq]
  constructor
  · show ALine.waitBuild name env.propolisRev err ∈
      env.packageManifest.flatMap
        (entryLines (latestRevs env) env.propolisRev env.resp)
    refine List.mem_flatMap.2
      ⟨(name, ZonePackageSource.prebuilt repo commit sha256), hmem, ?_⟩
    rw [entryLines_fail hlr hm hf]
    exact List.mem_singleton.2 rfl
  · show ∀ l ∈ env.packageManifest.flatMap
        (entryLines (latestRevs env) env.propolisRev env.resp), _
    intro l hl n2 r2 e2 heq
    rcases List.mem_flatMap.1 hl with ⟨e, _, hle⟩
    exact entryLines_waitBuild_rev e l hle n2 r2 e2 heq

def c9Env : Env :=
  { crucibleRev := "ccc", propolisRev := "ppp", maghemiteRev := "mmm",
    dendriteRev := "ddd", omicronRev := "ooo",
    crucibleTree := MTree.node [] MWorkspace.none,
    propolisTree := MTree.node [] MWorkspace.none,
    omicronTree := MTree.node [] MWorkspace.none,
    crucibleLock := [], propolisLock := [], omicronLock := [],
    packageManifest := [("crucible-img",
      ZonePackageSource.prebuilt "crucible" "c0" "s0")],
    resp := fun _ _ _ => ArtifactResponse.netErr "boom" }

/-- C9, witness: the failing crucible artifact's wait line carries the
propolis revision `ppp`, not crucible's own tracked revision `ccc`. -/
theorem claim_c9_witness :
    ALine.waitBuild "crucible-img" c9Env.propolisRev "boom" ∈
      (artifactChecks (latestRevs c9Env) c9Env.propolisRev c9Env.resp
        c9Env.packageManifest).lines ∧
    ∀ l ∈ (artifactChecks (latestRevs c9Env) c9Env.propolisRev c9Env.resp
        c9Env.packageManifest).lines,
      ∀ n2 r2 e2, l = ALine.waitBuild n2 r2 e2 → r2 = c9Env.propolisRev :=
  claim_c9_wait_names_propolis_rev c9Env "crucible-img" "crucible" "c0" "s0"
    "ccc" "boom" (by decide) (by decide) (by decide) (by decide)

/-- C10: whenever the lockfile staleness check emits a line for a package,
the package's source url path is literally `/oxidecomputer/` followed by a
repo name that has a tracked revision — a source hosted under any other
path prefix, or whose path remainder is not exactly a tracked repository
name, is never flagged. -/
theorem claim_c10_tracked_repo_match (sub_directory : String)
    (latest : List (String × String)) (deps : List String)
    (p : LockPackage) (line : String)
    (h : staleLine sub_directory latest deps p = Option.some line) :
    ∃ s repo rev, p.source = Option.some s ∧
      s.url.urlPath = "/oxidecomputer/" ++ repo ∧
      lookupRev latest repo = Option.some rev := by
  have hs : (staleLine sub_directory latest deps p).isSome = true := by
    rw [h]; rfl
  rw [staleLine_isSome_iff] at hs
  rcases hs with ⟨s, repo, precise, lrev, hsrc, hsp, hkind, hpr, hlook, hne, hdep⟩
  exact ⟨s, repo, lrev, hsrc, stripPre_eq_some hsp, hlook⟩

/-- C10, witness: a concrete flagged package indeed has url path
`/oxidecomputer/crucible` with `crucible` tracked. -/
theorem claim_c10_witness :
    ∃ s repo rev,
      (⟨"crucible", Option.some ⟨⟨"https://github.com", "/oxidecomputer/crucible"⟩,
        SourceKind.git (GitReference.branch "main"), Option.some "aaa"⟩⟩ :
          LockPackage).source = Option.some s ∧
      s.url.urlPath = "/oxidecomputer/" ++ repo ∧
      lookupRev [("crucible", "bbb")] repo = Option.some rev :=
  claim_c10_tracked_repo_match "crucible" [("crucible", "bbb")] ["crucible"]
    ⟨"crucible", Option.some ⟨⟨"https://github.com", "/oxidecomputer/crucible"⟩,
      SourceKind.git (GitReference.branch "main"), Option.some "aaa"⟩⟩
    "crucible/Cargo.lock has old rev for crucible crucible! update aaa to bbb"
    (by decide)
